import Mathlib

/-!
# Verification of the structured-output interpreter of `Sigmoid_GenAI_Streamlit.py`

This file shallowly embeds the interpreter core of the repository
(`extract_code_segments`, the inline dedent step, and `execute_analysis`)
and settles the frozen claims about it.

Conventions of the embedding:
* Python strings are `List Char`; `str.strip()` is `pyStrip`,
  `str.split (by a newline)` is `splitLines`, `"\n".join` is `joinLines`.
* `re.search (on a tag pattern with a lazy group and DOTALL)` is `extractTag`,
  built from `splitOnFirst`, literal leftmost substring search.
* Python's `exec` on an arbitrary namespace is an abstract `PyExecutor`
  parameter; `pyExec` instantiates it with a small-step interpreter of the
  statement forms the generated fragments of the claims use (assignments of
  integer literals, one-column dataframe sums, f-string templates), with
  CPython's two phases: whole-source parsing (syntax and indentation errors)
  then sequential execution (name and key errors).
* A raised Python exception is `Except.error`; the single `try/except` of
  `execute_analysis` is the `match` on the executor's result, returning the
  result record accumulated so far.
-/

/-- The six ASCII whitespace characters `str.strip()` removes. -/
def isWS (c : Char) : Bool :=
  c = ' ' || c = '\t' || c = '\n' || c = '\r' || c = Char.ofNat 11 || c = Char.ofNat 12

/-- The single-quote character. -/
def squo : Char := Char.ofNat 39

/-- Opening curly brace. -/
def lbrace : Char := Char.ofNat 123

/-- Closing curly brace. -/
def rbrace : Char := Char.ofNat 125

/-- Triple single-quote, the delimiter of the answer-template f-string. -/
def q3 : List Char := [squo, squo, squo]

/-- Whether `pat` is a prefix of `s` (Boolean, by character comparison). -/
def listStartsWith : List Char → List Char → Bool
  | [], _ => true
  | _ :: _, [] => false
  | p :: ps, c :: cs => p = c && listStartsWith ps cs

/-- Leftmost substring search: `splitOnFirst pat s = some (b, a)` when
`s = b ++ pat ++ a` at the first occurrence of `pat`, `none` when `pat`
does not occur.  This is the search the source's `re.search` performs for
the literal parts of its tag patterns. -/
def splitOnFirst (pat : List Char) : List Char → Option (List Char × List Char)
  | [] => if pat = [] then some ([], []) else none
  | c :: rest =>
      if listStartsWith pat (c :: rest) then some ([], (c :: rest).drop pat.length)
      else (splitOnFirst pat rest).map (fun p => (c :: p.1, p.2))

/-- `pat` occurs in `s` at position `i`. -/
def occursAt (pat s : List Char) (i : Nat) : Bool :=
  listStartsWith pat (s.drop i)

/-- Python's `str.split` on a newline: `''` splits to `['']`, separators at
the ends produce empty pieces. -/
def splitLines : List Char → List (List Char)
  | [] => [[]]
  | c :: rest =>
      if c = '\n' then [] :: splitLines rest
      else
        match splitLines rest with
        | [] => [[c]]
        | l :: ls => (c :: l) :: ls

/-- Python's `'\n'.join`. -/
def joinLines : List (List Char) → List Char
  | [] => []
  | [l] => l
  | l :: ls => l ++ '\n' :: joinLines ls

/-- Python's `str.strip()`: drop whitespace from both ends. -/
def pyStrip (s : List Char) : List Char :=
  ((s.dropWhile isWS).reverse.dropWhile isWS).reverse

/-- `len(line) - len(line.lstrip())`, the indent width computed at
lines 179 and 203 of the source. -/
def indentOf (line : List Char) : Nat :=
  line.length - (line.dropWhile isWS).length

/-- Truthiness of `line.strip()`: the line has a non-whitespace character. -/
def isNonBlank (line : List Char) : Bool :=
  line.any (fun c => !isWS c)

/-- One iteration of the `min_indent` loop: update the running minimum on a
non-blank line; `none` stands for the initial `float('inf')`. -/
def minIndentStep (min_indent : Option Nat) (line : List Char) : Option Nat :=
  if isNonBlank line then
    some (match min_indent with
          | none => indentOf line
          | some m => min m (indentOf line))
  else min_indent

/-- The `min_indent` loop of lines 176-180 / 200-204 of the source. -/
def minIndent (lines : List (List Char)) : Option Nat :=
  lines.foldl minIndentStep none

/-- The dedent step of lines 174-183 (identically 198-207) of
`execute_analysis`: strip the segment, split into lines, find the minimum
indent of the non-blank lines, drop that many characters from every
non-blank line and emit blank lines as empty.  The `getD 0` is never
exercised: `minIndent` is `none` only when every line is blank, and then no
line is dropped from. -/
def pyDedent (s : List Char) : List Char :=
  joinLines ((splitLines (pyStrip s)).map
    (fun line =>
      if isNonBlank line then
        line.drop ((minIndent (splitLines (pyStrip s))).getD 0)
      else []))

/-- Characterization helper for the dedent step: keep a non-blank line,
empty a blank one. -/
def blankToEmpty (line : List Char) : List Char :=
  if isNonBlank line then line else []

/-- The opening delimiter of a named segment. -/
def openTag (name : List Char) : List Char := '<' :: name ++ ['>']

/-- The closing delimiter of a named segment. -/
def closeTag (name : List Char) : List Char := '<' :: '/' :: name ++ ['>']

/-- One tag search of `extract_code_segments`: the source runs
`re.search` with pattern `<name>(.*?)</name>` and DOTALL and strips the
group — leftmost match, lazy inner group, so: first opening tag, then the
first closing tag after it; `none` when either is missing. -/
def extractTag (name : List Char) (text : List Char) : Option (List Char) :=
  match splitOnFirst (openTag name) text with
  | none => none
  | some (_, afterOpen) =>
      match splitOnFirst (closeTag name) afterOpen with
      | none => none
      | some (inner, _) => some (pyStrip inner)

/-- The segment dictionary built by `extract_code_segments` (lines 116-140):
a key is present exactly when its tag pair was found. -/
structure SegmentSet where
  approach : Option (List Char)
  code : Option (List Char)
  chart : Option (List Char)
  answer : Option (List Char)
deriving DecidableEq, Repr

/-- Truthiness of the Python dict: empty iff no segment was extracted. -/
def SegmentSet.isEmpty (s : SegmentSet) : Bool :=
  s.approach.isNone && s.code.isNone && s.chart.isNone && s.answer.isNone

/-- `extract_code_segments` (lines 116-140 of the source). -/
def extract_code_segments (response_text : List Char) : SegmentSet :=
  { approach := extractTag "approach".data response_text
    code := extractTag "code".data response_text
    chart := extractTag "chart".data response_text
    answer := extractTag "answer".data response_text }

/-- A dataframe, reduced to what the executed fragments observe: named
integer columns, summable. -/
structure PyDataFrame where
  cols : List (List Char × List Int)
deriving DecidableEq, Repr

/-- Python runtime values occurring in the modelled fragments. -/
inductive PyVal where
  | vInt : Int → PyVal
  | vStr : List Char → PyVal
  | vDF : PyDataFrame → PyVal
  | vModule : List Char → PyVal
deriving DecidableEq, Repr

/-- The `namespace` dict of `execute_analysis` (line 169). -/
abbrev PyNs := List (List Char × PyVal)

/-- `dict.get`: first binding of the name, if any. -/
def nsGet (ns : PyNs) (x : List Char) : Option PyVal :=
  (ns.find? (fun p => p.1 == x)).map (fun p => p.2)

/-- Assignment into the dict: overwrite the binding or append it. -/
def nsSet : PyNs → List Char → PyVal → PyNs
  | [], x, v => [(x, v)]
  | (y, w) :: rest, x, v =>
      if y == x then (y, v) :: rest else (y, w) :: nsSet rest x v

/-- The exceptions the modelled fragments can raise. -/
inductive PyErr where
  | syntaxError
  | indentationError
  | nameError
  | keyError
  | typeError
deriving DecidableEq, Repr

instance : DecidableEq (Except PyErr PyNs) := fun a b =>
  match a, b with
  | .ok x, .ok y =>
      if h : x = y then .isTrue (by rw [h])
      else .isFalse (fun hh => h (by cases hh; rfl))
  | .error x, .error y =>
      if h : x = y then .isTrue (by rw [h])
      else .isFalse (fun hh => h (by cases hh; rfl))
  | .ok _, .error _ => .isFalse (fun hh => by cases hh)
  | .error _, .ok _ => .isFalse (fun hh => by cases hh)

/-- One piece of an f-string template: literal text or an interpolated name. -/
inductive FPiece where
  | lit : List Char → FPiece
  | var : List Char → FPiece
deriving DecidableEq, Repr

/-- Expressions of the modelled Python fragment. -/
inductive PyExpr where
  | intLit : Int → PyExpr
  | colSum : List Char → List Char → PyExpr
  | fstr : List FPiece → PyExpr
deriving DecidableEq, Repr

/-- Statements of the modelled Python fragment. -/
inductive PyStmt where
  | assign : List Char → PyExpr → PyStmt
deriving DecidableEq, Repr

/-- Identifier-continuation character. -/
def isIdentChar (c : Char) : Bool :=
  c.isAlpha || c.isDigit || c = '_'

/-- A valid Python identifier (ASCII). -/
def isIdent : List Char → Bool
  | [] => false
  | c :: cs => (c.isAlpha || c = '_') && (c :: cs).all isIdentChar

/-- Decimal digits to a number. -/
def digitsToNat (ds : List Char) : Nat :=
  ds.foldl (fun n c => 10 * n + (c.toNat - 48)) 0

/-- Decimal rendering of a natural number (fuelled; fuel `n + 1` suffices). -/
def natToChars : Nat → Nat → List Char
  | 0, _ => []
  | fuel + 1, n =>
      if n < 10 then [Char.ofNat (48 + n)]
      else natToChars fuel (n / 10) ++ [Char.ofNat (48 + n % 10)]

/-- Python `str` of an integer. -/
def intToChars : Int → List Char
  | .ofNat n => natToChars (n + 1) n
  | .negSucc n => '-' :: natToChars (n + 2) (n + 1)

/-- Python `str` of a value, as interpolated into an f-string. -/
def strOfVal : PyVal → List Char
  | .vInt n => intToChars n
  | .vStr s => s
  | .vDF _ => "DataFrame".data
  | .vModule m => m

/-- Compile an f-string template: `{name}` interpolates, doubled braces are
literal, a stray or empty brace is a syntax error (fuelled; the template
length plus one suffices). -/
def parseFString : Nat → List Char → Except PyErr (List FPiece)
  | 0, _ => .error .syntaxError
  | _ + 1, [] => .ok []
  | fuel + 1, c :: rest =>
      if c = lbrace then
        match rest with
        | [] => .error .syntaxError
        | c2 :: rest2 =>
            if c2 = lbrace then
              (parseFString fuel rest2).map (fun ps => FPiece.lit [lbrace] :: ps)
            else
              let name := rest.takeWhile (fun ch => ch ≠ rbrace)
              match rest.drop name.length with
              | c3 :: tail =>
                  if c3 = rbrace && isIdent name then
                    (parseFString fuel tail).map (fun ps => FPiece.var name :: ps)
                  else .error .syntaxError
              | [] => .error .syntaxError
      else if c = rbrace then
        match rest with
        | c2 :: rest2 =>
            if c2 = rbrace then
              (parseFString fuel rest2).map (fun ps => FPiece.lit [rbrace] :: ps)
            else .error .syntaxError
        | [] => .error .syntaxError
      else (parseFString fuel rest).map (fun ps => FPiece.lit [c] :: ps)

/-- Parse one right-hand side: an integer literal, an f-string
`f<q3>template<q3>`, or `name[<q>col<q>].sum()`. -/
def parseExpr (e0 : List Char) : Except PyErr PyExpr :=
  let e := pyStrip e0
  if e ≠ [] && e.all Char.isDigit then
    .ok (.intLit (Int.ofNat (digitsToNat e)))
  else if listStartsWith ('f' :: q3) e then
    let body := e.drop 4
    if body.length ≥ 3 && decide (body.drop (body.length - 3) = q3)
        && (body.take (body.length - 3)).all (fun c => c ≠ squo) then
      (parseFString (body.length + 1) (body.take (body.length - 3))).map .fstr
    else .error .syntaxError
  else
    let dfv := e.takeWhile isIdentChar
    match e.drop dfv.length with
    | '[' :: r1 =>
        match r1 with
        | c1 :: r2 =>
            if c1 = squo then
              let col := r2.takeWhile (fun ch => ch ≠ squo)
              if isIdent dfv && col ≠ []
                  && decide (r2.drop col.length
                       = squo :: ']' :: '.' :: 's' :: 'u' :: 'm' :: '(' :: ')' :: []) then
                .ok (.colSum dfv col)
              else .error .syntaxError
            else .error .syntaxError
        | [] => .error .syntaxError
    | _ => .error .syntaxError

/-- Parse one logical line (already known to carry code and to start at
column zero): `name = expr`. -/
def parseStmt (line : List Char) : Except PyErr PyStmt :=
  match splitOnFirst ['='] line with
  | none => .error .syntaxError
  | some (lhs, rhs) =>
      let x := pyStrip lhs
      if isIdent x then (parseExpr rhs).map (PyStmt.assign x)
      else .error .syntaxError

/-- CPython's compile phase over the split lines: blank and comment-only
lines vanish; a code line with leading whitespace at top level is an
indentation error; other lines parse as statements.  A parse error anywhere
aborts the whole unit before anything runs. -/
def parseLines : List (List Char) → Except PyErr (List PyStmt)
  | [] => .ok []
  | line :: rest =>
      let stripped := line.dropWhile isWS
      if stripped.isEmpty then parseLines rest
      else if stripped.head? = some '#' then parseLines rest
      else if indentOf line ≠ 0 then .error .indentationError
      else
        match parseStmt line with
        | .error e => .error e
        | .ok st => (parseLines rest).map (fun sts => st :: sts)

/-- Compile a source text. -/
def parseSource (src : List Char) : Except PyErr (List PyStmt) :=
  parseLines (splitLines src)

/-- Evaluate an expression against the namespace. -/
def evalExpr (ns : PyNs) : PyExpr → Except PyErr PyVal
  | .intLit n => .ok (.vInt n)
  | .colSum dfv col =>
      match nsGet ns dfv with
      | none => .error .nameError
      | some (.vDF d) =>
          match d.cols.find? (fun p => p.1 == col) with
          | some p => .ok (.vInt (p.2.foldl (fun a b => a + b) 0))
          | none => .error .keyError
      | some _ => .error .typeError
  | .fstr pieces => (renderF ns pieces).map .vStr
where
  /-- Render the compiled template, interpolating bound names. -/
  renderF (ns : PyNs) : List FPiece → Except PyErr (List Char)
    | [] => .ok []
    | .lit s :: rest => (renderF ns rest).map (fun t => s ++ t)
    | .var x :: rest =>
        match nsGet ns x with
        | none => .error .nameError
        | some v => (renderF ns rest).map (fun t => strOfVal v ++ t)

/-- Run the compiled statements in order, mutating the namespace. -/
def runStmts (ns : PyNs) : List PyStmt → Except PyErr PyNs
  | [] => .ok ns
  | .assign x e :: rest =>
      match evalExpr ns e with
      | .error err => .error err
      | .ok v => runStmts (nsSet ns x v) rest

/-- The modelled `exec`: compile, then run. -/
def pyExec (src : List Char) (ns : PyNs) : Except PyErr PyNs :=
  match parseSource src with
  | .error e => .error e
  | .ok stmts => runStmts ns stmts

/-- An execution semantics for `exec`: the interpreter `execute_analysis`
invokes on each unit's source.  `pyExec` is one instance; the control-flow
theorems hold for every instance. -/
abbrev PyExecutor := List Char → PyNs → Except PyErr PyNs

/-- Whether a unit's execution raises. -/
def execFails (ex : PyExecutor) (src : List Char) (ns : PyNs) : Bool :=
  match ex src ns with
  | .error _ => true
  | .ok _ => false

/-- The chart artifact `plt.gcf()` hands back. -/
inductive PyFigure where
  | fig
deriving DecidableEq, Repr

/-- The `results` dict of `execute_analysis` (lines 144-150): five fields,
all initially `None`. -/
structure AnalysisResult where
  approach : Option (List Char)
  answer : Option PyVal
  figure : Option PyFigure
  code : Option (List Char)
  chart_code : Option (List Char)
deriving DecidableEq, Repr

/-- The freshly initialised `results` dict. -/
def emptyResult : AnalysisResult :=
  { approach := none, answer := none, figure := none, code := none, chart_code := none }

/-- The fresh namespace of line 169: the dataframe and the library handles. -/
def initNs (df : PyDataFrame) : PyNs :=
  [("df".data, .vDF df), ("pd".data, .vModule "pd".data),
   ("plt".data, .vModule "plt".data), ("sns".data, .vModule "sns".data)]

/-- The combined analysis-plus-answer source of lines 186-191: a leading
newline, the dedented code, a blank line, the template comment, and the
assignment of the answer template as an f-string. -/
def combinedCode (dedented_code answer_seg : List Char) : List Char :=
  '\n' :: (dedented_code ++ "\n\n# Format the answer template\nanswer_text = f".data
    ++ q3 ++ answer_seg ++ q3 ++ ['\n'])

/-- The chart block of lines 196-213: if a chart segment exists, dedent and
execute it in the shared namespace; success captures the current figure.  A
raise lands in the enclosing handler, which returns `results` as mutated so
far. -/
def runChart (ex : PyExecutor) (segments : SegmentSet) (ns : PyNs)
    (results : AnalysisResult) : AnalysisResult :=
  match segments.chart with
  | none => results
  | some chartSeg =>
      match ex (pyDedent chartSeg) ns with
      | .error _ => results
      | .ok _ => { results with figure := some .fig }

/-- The guarded analysis block of lines 172-193 followed by the chart block:
only when both the code and the answer segment exist is the combined unit
built and executed; its raise lands in the enclosing handler with the chart
block never reached. -/
def runUnits (ex : PyExecutor) (segments : SegmentSet) (ns : PyNs)
    (results : AnalysisResult) : AnalysisResult :=
  match segments.code, segments.answer with
  | some codeSeg, some answerSeg =>
      match ex (combinedCode (pyDedent codeSeg) answerSeg) ns with
      | .error _ => results
      | .ok ns1 =>
          runChart ex segments ns1 { results with answer := nsGet ns1 "answer_text".data }
  | _, _ => runChart ex segments ns results

/-- `execute_analysis` (lines 142-219 of the source), parametric in the
`exec` semantics.  The dict is threaded as a value; the `except` arm's
`return results` is each `.error` match arm returning the record as
accumulated at the raise point. -/
def execute_analysis (ex : PyExecutor) (df : PyDataFrame)
    (response_text : List Char) : AnalysisResult :=
  if (extract_code_segments response_text).isEmpty then emptyResult
  else
    runUnits ex (extract_code_segments response_text) (initNs df)
      { emptyResult with
          approach := (extract_code_segments response_text).approach
          code := (extract_code_segments response_text).code
          chart_code := (extract_code_segments response_text).chart }

/-- A dataframe whose `sales` column sums to 42. -/
def df0 : PyDataFrame := { cols := [("sales".data, [40, 2])] }

/-- A model output whose analysis code is malformed while its chart code is
valid. -/
def tBad : List Char :=
  "<code>1 +</code><answer>hi</answer><chart>x = 1</chart>".data

/-! ## Lemmas about line splitting and joining -/

theorem splitLines_ne_nil (s : List Char) : splitLines s ≠ [] := by
  induction s with
  | nil => simp [splitLines]
  | cons c rest ih =>
      unfold splitLines
      by_cases h : c = '\n'
      · simp [h]
      · simp only [h, if_false]
        cases hr : splitLines rest <;> simp

theorem splitLines_nl_free (s : List Char) :
    ∀ l ∈ splitLines s, '\n' ∉ l := by
  induction s with
  | nil =>
      intro l hl
      have : l = [] := by simpa [splitLines] using hl
      simp [this]
  | cons c rest ih =>
      intro l hl
      unfold splitLines at hl
      by_cases h : c = '\n'
      · simp only [h, if_true] at hl
        rcases List.mem_cons.mp hl with hl | hl
        · simp [hl]
        · exact ih l hl
      · simp only [h, if_false] at hl
        cases hr : splitLines rest with
        | nil => exact absurd hr (splitLines_ne_nil rest)
        | cons l0 ls =>
            rw [hr] at hl
            rcases List.mem_cons.mp hl with hl | hl
            · subst hl
              intro hmem
              rcases List.mem_cons.mp hmem with hh | hh
              · exact h hh.symm
              · exact ih l0 (by rw [hr]; exact List.mem_cons_self _ _) hh
            · exact ih l (by rw [hr]; exact List.mem_cons_of_mem _ hl)

theorem splitLines_nl_free_eq (l : List Char) (h : '\n' ∉ l) :
    splitLines l = [l] := by
  induction l with
  | nil => rfl
  | cons c rest ih =>
      have hc : c ≠ '\n' := fun hh => h (by simp [hh])
      have hr : splitLines rest = [rest] := ih (fun hh => h (List.mem_cons_of_mem _ hh))
      unfold splitLines
      simp [hc, hr]

theorem splitLines_append_nl (l t : List Char) (h : '\n' ∉ l) :
    splitLines (l ++ '\n' :: t) = l :: splitLines t := by
  induction l with
  | nil => simp [splitLines]
  | cons c rest ih =>
      have hc : c ≠ '\n' := fun hh => h (by simp [hh])
      have hr := ih (fun hh => h (List.mem_cons_of_mem _ hh))
      conv_lhs => rw [List.cons_append, splitLines]
      simp [hc, hr]

theorem splitLines_joinLines (xs : List (List Char)) (hne : xs ≠ [])
    (hnl : ∀ l ∈ xs, '\n' ∉ l) : splitLines (joinLines xs) = xs := by
  induction xs with
  | nil => exact absurd rfl hne
  | cons a tail ih =>
      cases tail with
      | nil => simpa [joinLines] using splitLines_nl_free_eq a (hnl a (by simp))
      | cons b tail' =>
          have hj : joinLines (a :: b :: tail') = a ++ '\n' :: joinLines (b :: tail') := rfl
          rw [hj, splitLines_append_nl a _ (hnl a (by simp))]
          rw [ih (by simp) (fun l hl => hnl l (List.mem_cons_of_mem _ hl))]

theorem joinLines_head_cons (c : Char) (h : List Char) (rest : List (List Char)) :
    ∃ t, joinLines ((c :: h) :: rest) = c :: t := by
  cases rest with
  | nil => exact ⟨h, rfl⟩
  | cons r rs => exact ⟨h ++ '\n' :: joinLines (r :: rs), rfl⟩

theorem joinLines_append_single (xs : List (List Char)) (a : List Char) (hne : xs ≠ []) :
    joinLines (xs ++ [a]) = joinLines xs ++ '\n' :: a := by
  induction xs with
  | nil => exact absurd rfl hne
  | cons x tail ih =>
      cases tail with
      | nil => rfl
      | cons y ys =>
          have h1 : joinLines ((x :: y :: ys) ++ [a])
              = x ++ '\n' :: joinLines ((y :: ys) ++ [a]) := rfl
          have h2 : joinLines (x :: y :: ys) = x ++ '\n' :: joinLines (y :: ys) := rfl
          rw [h1, ih (by simp), h2]
          simp

/-! ## Lemmas about stripping -/

theorem dropWhile_head_false (p : Char → Bool) (l : List Char) (c : Char) (cs : List Char)
    (h : l.dropWhile p = c :: cs) : p c = false := by
  induction l with
  | nil => simp [List.dropWhile] at h
  | cons d rest ih =>
      rw [List.dropWhile_cons] at h
      by_cases hp : p d
      · exact ih (by simpa [hp] using h)
      · simp only [hp, if_false] at h
        cases h
        simpa using hp

theorem dropWhile_eq_self (p : Char → Bool) (l : List Char)
    (h : ∀ c cs, l = c :: cs → p c = false) : l.dropWhile p = l := by
  cases l with
  | nil => rfl
  | cons c cs => simp [List.dropWhile_cons, h c cs rfl]

theorem dropWhile_suffix_decomp (p : Char → Bool) (m : List Char) :
    ∃ pre, m = pre ++ m.dropWhile p := by
  induction m with
  | nil => exact ⟨[], rfl⟩
  | cons c rest ih =>
      by_cases hp : p c
      · obtain ⟨pre, hpre⟩ := ih
        exact ⟨c :: pre, by simp [List.dropWhile_cons, hp]; exact hpre⟩
      · exact ⟨[], by simp [List.dropWhile_cons, hp]⟩

theorem pyStrip_rev_head (s : List Char) (c : Char) (cs : List Char)
    (h : (pyStrip s).reverse = c :: cs) : isWS c = false := by
  unfold pyStrip at h
  rw [List.reverse_reverse] at h
  exact dropWhile_head_false _ _ _ _ h

theorem pyStrip_head (s : List Char) (c : Char) (cs : List Char)
    (h : pyStrip s = c :: cs) : isWS c = false := by
  unfold pyStrip at h
  obtain ⟨pre, hpre⟩ := dropWhile_suffix_decomp isWS (s.dropWhile isWS).reverse
  have hX : s.dropWhile isWS
      = ((s.dropWhile isWS).reverse.dropWhile isWS).reverse ++ pre.reverse := by
    have h2 := congrArg List.reverse hpre
    rwa [List.reverse_reverse, List.reverse_append] at h2
  rw [h] at hX
  exact dropWhile_head_false isWS s c (cs ++ pre.reverse) (by rw [hX]; rfl)

theorem pyStrip_eq_self (l : List Char)
    (h1 : ∀ c cs, l = c :: cs → isWS c = false)
    (h2 : ∀ c cs, l.reverse = c :: cs → isWS c = false) : pyStrip l = l := by
  unfold pyStrip
  rw [dropWhile_eq_self isWS l h1]
  rw [dropWhile_eq_self isWS l.reverse h2]
  exact List.reverse_reverse l

/-! ## Characterization of the dedent step -/

theorem splitLines_cons_nl (rest : List Char) :
    splitLines ('\n' :: rest) = [] :: splitLines rest := rfl

theorem splitLines_cons_ne_nl (c : Char) (rest : List Char) (hc : c ≠ '\n') :
    ∃ h tail, splitLines (c :: rest) = (c :: h) :: tail ∧ splitLines rest = h :: tail := by
  have hstep : splitLines (c :: rest)
      = match splitLines rest with
        | [] => [[c]]
        | l :: ls => (c :: l) :: ls := by
    simp only [splitLines]
    simp [hc]
  cases hr : splitLines rest with
  | nil => exact absurd hr (splitLines_ne_nil rest)
  | cons l ls =>
      rw [hr] at hstep
      exact ⟨l, ls, hstep, rfl⟩

theorem splitLines_last (t : List Char) (d : Char)
    (h : t.reverse.head? = some d) (hdn : d ≠ '\n') :
    ∃ xs a, splitLines t = xs ++ [a] ∧ a.reverse.head? = some d := by
  induction t with
  | nil => simp at h
  | cons e t' ih =>
      cases t' with
      | nil =>
          have he : e = d := by simpa using h
          subst he
          obtain ⟨h0, tail, hsp, hsp'⟩ := splitLines_cons_ne_nl e [] hdn
          have h1 : h0 :: tail = [[]] := by
            rw [← hsp']; rfl
          injection h1 with h2 h3
          rw [h2, h3] at hsp
          exact ⟨[], [e], by simpa using hsp, by simp⟩
      | cons f t'' =>
          have hhd : (f :: t'').reverse.head? = some d := by
            have hrw : (e :: f :: t'').reverse = (f :: t'').reverse ++ [e] := by simp
            rw [hrw] at h
            cases hx : (f :: t'').reverse with
            | nil => simp at hx
            | cons d' ds => rw [hx] at h; simpa using h
          obtain ⟨xs, a, hxs, ha⟩ := ih hhd
          by_cases he : e = '\n'
          · subst he
            exact ⟨[] :: xs, a, by rw [splitLines_cons_nl, hxs]; rfl, ha⟩
          · obtain ⟨h0, tail, hsp, hsp'⟩ := splitLines_cons_ne_nl e (f :: t'') he
            have heq : h0 :: tail = xs ++ [a] := hsp'.symm.trans hxs
            cases hxscase : xs with
            | nil =>
                rw [hxscase] at heq
                simp only [List.nil_append] at heq
                injection heq with heq1 heq2
                rw [heq1, heq2] at hsp
                refine ⟨[], e :: a, by simpa using hsp, ?_⟩
                obtain ⟨d', ds, hx⟩ : ∃ d' ds, a.reverse = d' :: ds := by
                  cases hx : a.reverse with
                  | nil => rw [hx] at ha; exact absurd ha (by simp)
                  | cons d' ds => exact ⟨d', ds, rfl⟩
                rw [hx] at ha
                have hdd : d' = d := by simpa using ha
                rw [List.reverse_cons, hx, hdd]
                simp
            | cons x xs' =>
                rw [hxscase] at heq
                simp only [List.cons_append] at heq
                injection heq with heq1 heq2
                rw [heq1, heq2] at hsp
                exact ⟨(e :: x) :: xs', a, by simpa using hsp, ha⟩

theorem isNonBlank_of_rev_head (a : List Char) (d : Char)
    (ha : a.reverse.head? = some d) (hd : isWS d = false) : isNonBlank a = true := by
  have hmem : d ∈ a := by
    have h1 : d ∈ a.reverse := by
      cases hx : a.reverse with
      | nil => rw [hx] at ha; exact absurd ha (by simp)
      | cons d' ds =>
          rw [hx] at ha
          have hdd : d' = d := by simpa using ha
          rw [← hdd]
          exact List.mem_cons_self _ _
    exact List.mem_reverse.mp h1
  unfold isNonBlank
  rw [List.any_eq_true]
  exact ⟨d, hmem, by simp [hd]⟩

theorem minIndent_fold_zero (ls : List (List Char)) :
    List.foldl minIndentStep (some 0) ls = some 0 := by
  induction ls with
  | nil => rfl
  | cons l ls ih =>
      rw [List.foldl_cons]
      have : minIndentStep (some 0) l = some 0 := by
        unfold minIndentStep
        by_cases hb : isNonBlank l <;> simp [hb, Nat.zero_min]
      rw [this, ih]

theorem minIndent_cons_zero (l : List Char) (ls : List (List Char))
    (hnb : isNonBlank l = true) (hind : indentOf l = 0) :
    minIndent (l :: ls) = some 0 := by
  unfold minIndent
  rw [List.foldl_cons]
  have : minIndentStep none l = some 0 := by simp [minIndentStep, hnb, hind]
  rw [this, minIndent_fold_zero]

theorem pyDedent_eq (s : List Char) :
    pyDedent s = joinLines ((splitLines (pyStrip s)).map blankToEmpty) := by
  unfold pyDedent
  cases hps : pyStrip s with
  | nil => rfl
  | cons c t' =>
      have hc : isWS c = false := pyStrip_head s c t' hps
      have hnlws : isWS '\n' = true := by decide
      have hcn : c ≠ '\n' := fun hh => by rw [hh, hnlws] at hc; exact Bool.noConfusion hc
      obtain ⟨h0, tail, hsp, _⟩ := splitLines_cons_ne_nl c t' hcn
      rw [hsp]
      have hnb : isNonBlank (c :: h0) = true := by simp [isNonBlank, hc]
      have hind : indentOf (c :: h0) = 0 := by
        simp [indentOf, List.dropWhile_cons, hc]
      rw [minIndent_cons_zero _ _ hnb hind]
      have hfg : (fun line : List Char =>
          if isNonBlank line then line.drop ((some 0 : Option Nat).getD 0) else [])
          = blankToEmpty := by
        funext line
        by_cases hb : isNonBlank line <;> simp [blankToEmpty, hb]
      rw [hfg]

theorem dedent_lines (s : List Char) :
    splitLines (pyDedent s) = (splitLines (pyStrip s)).map blankToEmpty := by
  rw [pyDedent_eq]
  apply splitLines_joinLines
  · intro hmap
    exact splitLines_ne_nil (pyStrip s) (by simpa using hmap)
  · intro l hl
    obtain ⟨l0, hl0, rfl⟩ := List.mem_map.mp hl
    have hnl := splitLines_nl_free (pyStrip s) l0 hl0
    unfold blankToEmpty
    by_cases hb : isNonBlank l0 <;> simp [hb, hnl]

theorem blankToEmpty_idem (l : List Char) :
    blankToEmpty (blankToEmpty l) = blankToEmpty l := by
  by_cases hb : isNonBlank l = true
  · simp [blankToEmpty, hb]
  · rw [Bool.not_eq_true] at hb
    simp [blankToEmpty, hb]

theorem pyDedent_of_strip_nil (s : List Char) (h : pyStrip s = []) : pyDedent s = [] := by
  rw [pyDedent_eq, h]; rfl

theorem pyStrip_pyDedent (s : List Char) : pyStrip (pyDedent s) = pyDedent s := by
  cases hps : pyStrip s with
  | nil => rw [pyDedent_of_strip_nil s hps]; rfl
  | cons c t' =>
      have hc : isWS c = false := pyStrip_head s c t' hps
      have hnlws : isWS '\n' = true := by decide
      have hcn : c ≠ '\n' := fun hh => by rw [hh, hnlws] at hc; exact Bool.noConfusion hc
      obtain ⟨h0, tail, hsp, _⟩ := splitLines_cons_ne_nl c t' hcn
      have hnb : isNonBlank (c :: h0) = true := by simp [isNonBlank, hc]
      have hbte : blankToEmpty (c :: h0) = c :: h0 := by
        unfold blankToEmpty; rw [hnb]; rfl
      have hD : pyDedent s = joinLines ((c :: h0) :: tail.map blankToEmpty) := by
        rw [pyDedent_eq, hps, hsp, List.map_cons, hbte]
      obtain ⟨t1, hhead⟩ := joinLines_head_cons c h0 (tail.map blankToEmpty)
      obtain ⟨d, ds, hrev⟩ : ∃ d ds, (pyStrip s).reverse = d :: ds := by
        cases hx : (pyStrip s).reverse with
        | nil =>
            rw [hps] at hx
            simp at hx
        | cons d ds => exact ⟨d, ds, rfl⟩
      have hd : isWS d = false := pyStrip_rev_head s d ds hrev
      have hdn : d ≠ '\n' := fun hh => by rw [hh, hnlws] at hd; exact Bool.noConfusion hd
      obtain ⟨xs, a, hxs, ha⟩ := splitLines_last (pyStrip s) d (by rw [hrev]; rfl) hdn
      have hnba : isNonBlank a = true := isNonBlank_of_rev_head a d ha hd
      have hbta : blankToEmpty a = a := by
        unfold blankToEmpty; rw [hnba]; rfl
      have hD2 : pyDedent s = joinLines (xs.map blankToEmpty ++ [a]) := by
        rw [pyDedent_eq, hxs, List.map_append]
        simp [hbta]
      obtain ⟨ds', ha'⟩ : ∃ ds', a.reverse = d :: ds' := by
        cases hx : a.reverse with
        | nil => rw [hx] at ha; exact absurd ha (by simp)
        | cons d' ds' =>
            rw [hx] at ha
            have hdd : d' = d := by simpa using ha
            exact ⟨ds', by rw [hdd]⟩
      obtain ⟨t2, hlast⟩ : ∃ t2, (pyDedent s).reverse = d :: t2 := by
        rw [hD2]
        cases hm : xs.map blankToEmpty with
        | nil =>
            refine ⟨ds', ?_⟩
            have : joinLines ([] ++ [a]) = a := rfl
            rw [this, ha']
        | cons y ys =>
            rw [joinLines_append_single (y :: ys) a (by simp)]
            refine ⟨ds' ++ '\n' :: (joinLines (y :: ys)).reverse, ?_⟩
            rw [List.reverse_append, List.reverse_cons, ha']
            simp
      apply pyStrip_eq_self
      · intro c' cs' hh
        rw [hD, hhead] at hh
        cases hh
        exact hc
      · intro c' cs' hh
        rw [hlast] at hh
        cases hh
        exact hd

/-! ## Lemmas about leftmost substring search -/

theorem listStartsWith_append (pat v : List Char) :
    listStartsWith pat (pat ++ v) = true := by
  induction pat with
  | nil => rfl
  | cons p ps ih => simp [listStartsWith, ih]

theorem drop_length_append (pat v : List Char) : (pat ++ v).drop pat.length = v := by
  induction pat with
  | nil => rfl
  | cons p ps ih => simp [ih]

theorem splitOnFirst_first (pat : List Char) (hne : pat ≠ []) (u v : List Char) :
    ∀ s : List Char, s = u ++ pat ++ v →
    (∀ i, i < u.length → occursAt pat s i = false) →
    splitOnFirst pat s = some (u, v) := by
  induction u with
  | nil =>
      intro s hs _
      subst hs
      simp only [List.nil_append]
      cases hp : pat with
      | nil => exact absurd hp hne
      | cons p ps =>
          subst hp
          have hsw : listStartsWith (p :: ps) (p :: (ps ++ v)) = true := by
            have := listStartsWith_append (p :: ps) v
            rwa [List.cons_append] at this
          rw [List.cons_append]
          simp only [splitOnFirst, hsw, if_true]
          simp [drop_length_append]
  | cons c u' ih =>
      intro s hs hfirst
      subst hs
      simp only [List.cons_append]
      have hsw : listStartsWith pat (c :: (u' ++ pat ++ v)) = false := by
        have h0 := hfirst 0 (by simp)
        simpa [occursAt] using h0
      simp only [splitOnFirst, hsw, Bool.false_eq_true, if_false]
      rw [ih (u' ++ pat ++ v) rfl ?_]
      · rfl
      · intro i hi
        have := hfirst (i + 1) (by simpa using Nat.succ_lt_succ hi)
        simpa [occursAt, List.drop_succ_cons, List.cons_append] using this

theorem splitOnFirst_none (pat : List Char) (p : Char) (ps : List Char)
    (hp : pat = p :: ps) :
    ∀ s : List Char, (∀ i, i < s.length → occursAt pat s i = false) →
    splitOnFirst pat s = none := by
  intro s
  induction s with
  | nil =>
      intro _
      simp [splitOnFirst, hp]
  | cons c rest ih =>
      intro hno
      have h0 : listStartsWith pat (c :: rest) = false := by
        have := hno 0 (by simp)
        simpa [occursAt] using this
      simp only [splitOnFirst, h0, Bool.false_eq_true, if_false]
      rw [ih ?_]
      · rfl
      · intro i hi
        have := hno (i + 1) (by simpa using Nat.succ_lt_succ hi)
        simpa [occursAt, List.drop_succ_cons] using this

theorem extractTag_some (name t u w r : List Char)
    (ht : t = u ++ openTag name ++ w ++ closeTag name ++ r)
    (hu : ∀ i, i < u.length → occursAt (openTag name) t i = false)
    (hw : ∀ j, j < w.length →
      occursAt (closeTag name) (w ++ closeTag name ++ r) j = false) :
    extractTag name t = some (pyStrip w) := by
  have ht' : t = u ++ openTag name ++ (w ++ closeTag name ++ r) := by
    rw [ht]; simp [List.append_assoc]
  have hopen : splitOnFirst (openTag name) t = some (u, w ++ closeTag name ++ r) :=
    splitOnFirst_first (openTag name) (by simp [openTag]) u (w ++ closeTag name ++ r) t ht' hu
  have hclose : splitOnFirst (closeTag name) (w ++ closeTag name ++ r) = some (w, r) :=
    splitOnFirst_first (closeTag name) (by simp [closeTag]) w r _ rfl hw
  unfold extractTag
  rw [hopen]
  dsimp only
  rw [hclose]

theorem extractTag_unterminated (name t u v : List Char)
    (ht : t = u ++ openTag name ++ v)
    (hu : ∀ i, i < u.length → occursAt (openTag name) t i = false)
    (hv : ∀ j, j < v.length → occursAt (closeTag name) v j = false) :
    extractTag name t = none := by
  have hopen : splitOnFirst (openTag name) t = some (u, v) :=
    splitOnFirst_first (openTag name) (by simp [openTag]) u v t ht hu
  have hclose : splitOnFirst (closeTag name) v = none :=
    splitOnFirst_none (closeTag name) '<' ('/' :: name ++ ['>']) rfl v hv
  unfold extractTag
  rw [hopen]
  dsimp only
  rw [hclose]

theorem extractTag_no_open (name t : List Char)
    (h : ∀ i, i < t.length → occursAt (openTag name) t i = false) :
    extractTag name t = none := by
  have hopen : splitOnFirst (openTag name) t = none :=
    splitOnFirst_none (openTag name) '<' (name ++ ['>']) rfl t h
  unfold extractTag
  rw [hopen]

/-! ## Control-flow lemmas about `execute_analysis` -/

theorem runChart_approach (ex : PyExecutor) (s : SegmentSet) (ns : PyNs)
    (r : AnalysisResult) : (runChart ex s ns r).approach = r.approach := by
  unfold runChart
  split
  · rfl
  · split <;> rfl

theorem runChart_answer (ex : PyExecutor) (s : SegmentSet) (ns : PyNs)
    (r : AnalysisResult) : (runChart ex s ns r).answer = r.answer := by
  unfold runChart
  split
  · rfl
  · split <;> rfl

theorem runChart_code (ex : PyExecutor) (s : SegmentSet) (ns : PyNs)
    (r : AnalysisResult) : (runChart ex s ns r).code = r.code := by
  unfold runChart
  split
  · rfl
  · split <;> rfl

theorem runChart_chart_code (ex : PyExecutor) (s : SegmentSet) (ns : PyNs)
    (r : AnalysisResult) : (runChart ex s ns r).chart_code = r.chart_code := by
  unfold runChart
  split
  · rfl
  · split <;> rfl

theorem runChart_of_chart_none (ex : PyExecutor) (s : SegmentSet) (ns : PyNs)
    (r : AnalysisResult) (h : s.chart = none) : runChart ex s ns r = r := by
  unfold runChart
  rw [h]

theorem runUnits_of_guard_fail (ex : PyExecutor) (s : SegmentSet) (ns : PyNs)
    (r : AnalysisResult) (h : s.code = none ∨ s.answer = none) :
    runUnits ex s ns r = runChart ex s ns r := by
  unfold runUnits
  rcases h with h | h
  · rw [h]
  · rw [h]
    cases s.code <;> rfl

theorem runUnits_approach (ex : PyExecutor) (s : SegmentSet) (ns : PyNs)
    (r : AnalysisResult) : (runUnits ex s ns r).approach = r.approach := by
  unfold runUnits
  split
  · split
    · rfl
    · rw [runChart_approach]
  · rw [runChart_approach]

theorem runUnits_code (ex : PyExecutor) (s : SegmentSet) (ns : PyNs)
    (r : AnalysisResult) : (runUnits ex s ns r).code = r.code := by
  unfold runUnits
  split
  · split
    · rfl
    · rw [runChart_code]
  · rw [runChart_code]

theorem runUnits_chart_code (ex : PyExecutor) (s : SegmentSet) (ns : PyNs)
    (r : AnalysisResult) : (runUnits ex s ns r).chart_code = r.chart_code := by
  unfold runUnits
  split
  · split
    · rfl
    · rw [runChart_chart_code]
  · rw [runChart_chart_code]

theorem isEmpty_eq (s : SegmentSet) (h : s.isEmpty = true) :
    s.approach = none ∧ s.code = none ∧ s.chart = none ∧ s.answer = none := by
  unfold SegmentSet.isEmpty at h
  simp only [Bool.and_eq_true, Option.isNone_iff_eq_none] at h
  exact ⟨h.1.1.1, h.1.1.2, h.1.2, h.2⟩

theorem ea_approach (ex : PyExecutor) (df : PyDataFrame) (t : List Char) :
    (execute_analysis ex df t).approach = (extract_code_segments t).approach := by
  unfold execute_analysis
  by_cases h : (extract_code_segments t).isEmpty = true
  · rw [if_pos h, (isEmpty_eq _ h).1]
    rfl
  · rw [if_neg h, runUnits_approach]

theorem ea_code (ex : PyExecutor) (df : PyDataFrame) (t : List Char) :
    (execute_analysis ex df t).code = (extract_code_segments t).code := by
  unfold execute_analysis
  by_cases h : (extract_code_segments t).isEmpty = true
  · rw [if_pos h, (isEmpty_eq _ h).2.1]
    rfl
  · rw [if_neg h, runUnits_code]

theorem ea_chart_code (ex : PyExecutor) (df : PyDataFrame) (t : List Char) :
    (execute_analysis ex df t).chart_code = (extract_code_segments t).chart := by
  unfold execute_analysis
  by_cases h : (extract_code_segments t).isEmpty = true
  · rw [if_pos h, (isEmpty_eq _ h).2.2.1]
    rfl
  · rw [if_neg h, runUnits_chart_code]

theorem isEmpty_false_of_code (s : SegmentSet) (c : List Char) (hc : s.code = some c) :
    s.isEmpty = false := by
  unfold SegmentSet.isEmpty
  rw [hc]
  simp

theorem ea_guarded_run (ex : PyExecutor) (df : PyDataFrame) (t : List Char)
    (hne : (extract_code_segments t).isEmpty = false) :
    execute_analysis ex df t =
      runUnits ex (extract_code_segments t) (initNs df)
        { emptyResult with
            approach := (extract_code_segments t).approach
            code := (extract_code_segments t).code
            chart_code := (extract_code_segments t).chart } := by
  unfold execute_analysis
  rw [if_neg (by simp [hne])]

theorem runUnits_code_fail (ex : PyExecutor) (s : SegmentSet) (ns : PyNs)
    (r : AnalysisResult) (codeSeg answerSeg : List Char) (e : PyErr)
    (hc : s.code = some codeSeg) (ha : s.answer = some answerSeg)
    (hfail : ex (combinedCode (pyDedent codeSeg) answerSeg) ns = Except.error e) :
    runUnits ex s ns r = r := by
  obtain ⟨ap, cd, ch, an⟩ := s
  dsimp only at hc ha
  subst hc
  subst ha
  unfold runUnits
  dsimp only
  rw [hfail]

theorem runUnits_code_ok (ex : PyExecutor) (s : SegmentSet) (ns : PyNs)
    (r : AnalysisResult) (codeSeg answerSeg : List Char) (ns1 : PyNs)
    (hc : s.code = some codeSeg) (ha : s.answer = some answerSeg)
    (hok : ex (combinedCode (pyDedent codeSeg) answerSeg) ns = Except.ok ns1) :
    runUnits ex s ns r
      = runChart ex s ns1 { r with answer := nsGet ns1 "answer_text".data } := by
  obtain ⟨ap, cd, ch, an⟩ := s
  dsimp only at hc ha
  subst hc
  subst ha
  unfold runUnits
  dsimp only
  rw [hok]

/-! ## The claims -/

/-- C5 (confirmed): the source normalization performed on a code or chart
segment before execution (lines 174-183 / 198-207) is idempotent — applying
the strip-split-dedent-join step twice yields the same string as applying
it once, for every code segment text. -/
theorem c5_normalization_idempotent (x : List Char) :
    pyDedent (pyDedent x) = pyDedent x := by
  have hbte : blankToEmpty ∘ blankToEmpty = blankToEmpty := funext blankToEmpty_idem
  calc pyDedent (pyDedent x)
      = joinLines ((splitLines (pyStrip (pyDedent x))).map blankToEmpty) := pyDedent_eq _
    _ = joinLines ((splitLines (pyDedent x)).map blankToEmpty) := by rw [pyStrip_pyDedent]
    _ = joinLines (((splitLines (pyStrip x)).map blankToEmpty).map blankToEmpty) := by
        rw [dedent_lines]
    _ = joinLines ((splitLines (pyStrip x)).map blankToEmpty) := by
        rw [List.map_map, hbte]
    _ = pyDedent x := (pyDedent_eq x).symm

/-- C2 (confirmed): for every execution semantics, dataframe and raw model
output, `execute_analysis` returns a full five-field `AnalysisResult` (the
embedding is total — every raise of extraction, normalization or execution
is caught inside and never escapes); the `approach`, `code` and
`chart_code` fields always hold exactly the extracted segments, so only
the `answer` and `figure` fields can be degraded by a failure. -/
theorem c2_total_result (ex : PyExecutor) (df : PyDataFrame) (t : List Char) :
    ∃ ans fig, execute_analysis ex df t =
      { approach := (extract_code_segments t).approach
        answer := ans
        figure := fig
        code := (extract_code_segments t).code
        chart_code := (extract_code_segments t).chart } := by
  refine ⟨(execute_analysis ex df t).answer, (execute_analysis ex df t).figure, ?_⟩
  rw [← ea_approach ex df t, ← ea_code ex df t, ← ea_chart_code ex df t]

/-- C4 (confirmed): for every raw model output containing a well-formed
`<answer>…</answer>` pair, extraction stores the inner text between the
first opening tag and the first subsequent closing tag, trimmed of
whitespace; later duplicate or nested delimiters are ignored, and an
opening tag with no subsequent closing tag yields no segment. -/
theorem c4_answer_extraction :
    (∀ t u w r : List Char,
      t = u ++ openTag "answer".data ++ w ++ closeTag "answer".data ++ r →
      (∀ i, i < u.length → occursAt (openTag "answer".data) t i = false) →
      (∀ j, j < w.length →
        occursAt (closeTag "answer".data) (w ++ closeTag "answer".data ++ r) j = false) →
      (extract_code_segments t).answer = some (pyStrip w))
    ∧ (∀ t u v : List Char,
      t = u ++ openTag "answer".data ++ v →
      (∀ i, i < u.length → occursAt (openTag "answer".data) t i = false) →
      (∀ j, j < v.length → occursAt (closeTag "answer".data) v j = false) →
      (extract_code_segments t).answer = none) := by
  constructor
  · intro t u w r ht hu hw
    show extractTag "answer".data t = some (pyStrip w)
    exact extractTag_some _ t u w r ht hu hw
  · intro t u v ht hu hv
    show extractTag "answer".data t = none
    exact extractTag_unterminated _ t u v ht hu hv

/-- C4 witness: `<answer> hi </answer>` followed by a duplicate pair
extracts the first inner text trimmed to `hi`; an unterminated `<answer>`
yields no segment. -/
theorem c4_answer_extraction_witness :
    (extract_code_segments "x<answer> hi </answer>y<answer>z</answer>".data).answer
      = some (pyStrip " hi ".data)
    ∧ (extract_code_segments "x<answer>no close here".data).answer = none := by
  constructor
  · exact c4_answer_extraction.1 "x<answer> hi </answer>y<answer>z</answer>".data
      "x".data " hi ".data "y<answer>z</answer>".data
      (by decide) (by decide) (by decide)
  · exact c4_answer_extraction.2 "x<answer>no close here".data
      "x".data "no close here".data
      (by decide) (by decide) (by decide)

/-- C6 counterexample: on the raw segment text `"    a\n      b"` the two
non-blank lines are indented 4 and 6 characters (difference 2) before
normalization, but 0 and 6 (difference 6) after it, because the
preliminary strip removes only the first line's indentation and the
computed minimum indent is then 0; the claimed minimum-width stripping
would have produced `"a\n  b"`, which the step does not produce. -/
theorem c6_counterexample :
    indentOf (((splitLines "    a\n      b".data).get? 0).getD []) = 4
    ∧ indentOf (((splitLines "    a\n      b".data).get? 1).getD []) = 6
    ∧ indentOf (((splitLines (pyDedent "    a\n      b".data)).get? 0).getD []) = 0
    ∧ indentOf (((splitLines (pyDedent "    a\n      b".data)).get? 1).getD []) = 6
    ∧ pyDedent "    a\n      b".data ≠ "a\n  b".data := by decide

/-- C6 (corrected): the normalization step first trims the segment, and on
the trimmed text the minimum indent of the non-blank lines is always zero;
so the step emits every non-blank line of the trimmed text unchanged
(stripping exactly the computed minimum, zero) and every blank line as
empty.  Relative indentation among the trimmed text's lines is therefore
preserved, but indentation relative to the raw segment's first line is
not, since the trim removed it (see the counterexample). -/
theorem c6_trimmed_lines_preserved (x : List Char) (i : Nat) (A : List Char)
    (hA : (splitLines (pyStrip x)).get? i = some A) :
    (isNonBlank A = true → (splitLines (pyDedent x)).get? i = some A)
    ∧ (isNonBlank A = false → (splitLines (pyDedent x)).get? i = some []) := by
  constructor
  · intro hnb
    rw [dedent_lines, List.get?_map, hA]
    simp [blankToEmpty, hnb]
  · intro hnb
    rw [dedent_lines, List.get?_map, hA]
    simp [blankToEmpty, hnb]

/-- C6 witness: in the trimmed text `"a\n   b"` the non-blank line `   b`
passes through normalization unchanged at its position. -/
theorem c6_trimmed_lines_preserved_witness :
    (splitLines (pyDedent "a\n   b".data)).get? 1 = some "   b".data := by
  exact (c6_trimmed_lines_preserved "a\n   b".data 1 "   b".data (by decide)).1 (by decide)

/-- C1 counterexample: on `tBad` the analysis unit raises (the generated
code `1 +` is a syntax error) while the chart code `x = 1` is valid in the
same initial namespace, yet the result's figure is null: the raise jumped
to the shared `except` handler and the chart unit never ran, refuting the
claimed independence of the chart unit from an analysis-unit failure. -/
theorem c1_counterexample :
    execFails pyExec (combinedCode (pyDedent "1 +".data) "hi".data) (initNs df0) = true
    ∧ execFails pyExec (pyDedent "x = 1".data) (initNs df0) = false
    ∧ (extract_code_segments tBad).chart = some "x = 1".data
    ∧ (execute_analysis pyExec df0 tBad).figure = none := by decide

/-- C1 (corrected, amended claim): the two units are not symmetrically
independent.  The analysis unit runs first inside the single `try` block:
if it raises, control jumps to the shared handler and the chart unit is
never executed, so the figure stays null even when the chart code is
valid; in the other direction, when the analysis unit succeeds its answer
is read back into the result before the chart unit runs, so a chart-unit
failure cannot affect the already-produced answer field. -/
theorem c1_amended_one_directional (ex : PyExecutor) (df : PyDataFrame)
    (t codeSeg answerSeg : List Char)
    (hc : (extract_code_segments t).code = some codeSeg)
    (ha : (extract_code_segments t).answer = some answerSeg) :
    (∀ e, ex (combinedCode (pyDedent codeSeg) answerSeg) (initNs df) = Except.error e →
      (execute_analysis ex df t).figure = none)
    ∧ (∀ ns1, ex (combinedCode (pyDedent codeSeg) answerSeg) (initNs df) = Except.ok ns1 →
      (execute_analysis ex df t).answer = nsGet ns1 "answer_text".data) := by
  have hne := isEmpty_false_of_code _ _ hc
  constructor
  · intro e he
    rw [ea_guarded_run ex df t hne,
      runUnits_code_fail ex _ _ _ _ _ e hc ha he]
    rfl
  · intro ns1 hok
    rw [ea_guarded_run ex df t hne,
      runUnits_code_ok ex _ _ _ _ _ ns1 hc ha hok, runChart_answer]

/-- C1 witness: at `tBad` the analysis unit raises a syntax error and the
amended claim's first direction gives a null figure. -/
theorem c1_amended_one_directional_witness :
    (execute_analysis pyExec df0 tBad).figure = none := by
  exact (c1_amended_one_directional pyExec df0 tBad "1 +".data "hi".data
    (by decide) (by decide)).1 PyErr.syntaxError (by decide)

/-- C8 (confirmed): whenever the combined analysis unit raises, the result
has a null answer while the `code` field still holds the raw extracted
source and `chart_code` still holds the raw chart text when present; no
exception escapes (the embedding is total).  The raw fields are populated
before the `try` body runs the unit, hence independently of execution
success. -/
theorem c8_code_failure_preserves_raw (ex : PyExecutor) (df : PyDataFrame)
    (t codeSeg answerSeg : List Char) (e : PyErr)
    (hc : (extract_code_segments t).code = some codeSeg)
    (ha : (extract_code_segments t).answer = some answerSeg)
    (hfail : ex (combinedCode (pyDedent codeSeg) answerSeg) (initNs df) = Except.error e) :
    (execute_analysis ex df t).answer = none
    ∧ (execute_analysis ex df t).code = some codeSeg
    ∧ (execute_analysis ex df t).chart_code = (extract_code_segments t).chart := by
  have hne := isEmpty_false_of_code _ _ hc
  have hrw : execute_analysis ex df t =
      { emptyResult with
          approach := (extract_code_segments t).approach
          code := (extract_code_segments t).code
          chart_code := (extract_code_segments t).chart } :=
    (ea_guarded_run ex df t hne).trans
      (runUnits_code_fail ex _ _ _ _ _ e hc ha hfail)
  refine ⟨?_, ?_, ?_⟩
  · rw [hrw]
    rfl
  · rw [hrw]
    exact hc
  · rw [hrw]

/-- C8 witness: at `tBad` (syntax error in the code segment) the answer is
null while both raw source fields are preserved. -/
theorem c8_code_failure_preserves_raw_witness :
    (execute_analysis pyExec df0 tBad).answer = none
    ∧ (execute_analysis pyExec df0 tBad).code = some "1 +".data
    ∧ (execute_analysis pyExec df0 tBad).chart_code = some "x = 1".data := by
  have h := c8_code_failure_preserves_raw pyExec df0 tBad "1 +".data "hi".data
    PyErr.syntaxError (by decide) (by decide) (by decide)
  exact ⟨h.1, h.2.1, h.2.2.trans (by decide)⟩

/-- C9 (confirmed): the analysis unit is built and executed only when both
the `code` and the `answer` segment are present.  When either is missing,
`execute_analysis` is exactly the chart block applied to the fresh
namespace and the pre-chart result record — no analysis code is executed
for any execution semantics — the answer field is null, and the `code`
field still carries the raw code segment when present. -/
theorem c9_analysis_guard (ex : PyExecutor) (df : PyDataFrame) (t : List Char)
    (hno : (extract_code_segments t).code = none
      ∨ (extract_code_segments t).answer = none) :
    execute_analysis ex df t =
      runChart ex (extract_code_segments t) (initNs df)
        { emptyResult with
            approach := (extract_code_segments t).approach
            code := (extract_code_segments t).code
            chart_code := (extract_code_segments t).chart }
    ∧ (execute_analysis ex df t).answer = none
    ∧ (execute_analysis ex df t).code = (extract_code_segments t).code := by
  by_cases hE : (extract_code_segments t).isEmpty = true
  · obtain ⟨h1, h2, h3, h4⟩ := isEmpty_eq _ hE
    refine ⟨?_, ?_, ?_⟩
    · unfold execute_analysis
      rw [if_pos hE, runChart_of_chart_none _ _ _ _ h3, h1, h2, h3]
      rfl
    · unfold execute_analysis
      rw [if_pos hE]
      rfl
    · unfold execute_analysis
      rw [if_pos hE, h2]
      rfl
  · have hne : (extract_code_segments t).isEmpty = false := by
      cases hx : (extract_code_segments t).isEmpty
      · rfl
      · exact absurd hx hE
    have hrun := ea_guarded_run ex df t hne
    have hg := runUnits_of_guard_fail ex (extract_code_segments t) (initNs df)
      { emptyResult with
          approach := (extract_code_segments t).approach
          code := (extract_code_segments t).code
          chart_code := (extract_code_segments t).chart } hno
    refine ⟨hrun.trans hg, ?_, ?_⟩
    · rw [hrun, hg, runChart_answer]
      rfl
    · rw [hrun, hg, runChart_code]

/-- C9 witness: a code segment with no answer segment leaves the answer
null and the raw code preserved, with no analysis executed. -/
theorem c9_analysis_guard_witness :
    (execute_analysis pyExec df0 "<code>x = 1</code>".data).answer = none
    ∧ (execute_analysis pyExec df0 "<code>x = 1</code>".data).code
        = some "x = 1".data := by
  have h := c9_analysis_guard pyExec df0 "<code>x = 1</code>".data (Or.inr (by decide))
  exact ⟨h.2.1, h.2.2.trans (by decide)⟩

/-- C10 (confirmed): delimiter matching is exact on the lowercase tag
names; whenever none of the four lowercase opening tags occurs anywhere in
the input — in particular when the tags differ in case, such as
`<Answer>` or `<CODE>` — extraction yields no segment at all and every
field of the result is null. -/
theorem c10_case_sensitive (ex : PyExecutor) (df : PyDataFrame) (t : List Char)
    (h1 : ∀ i, i < t.length → occursAt (openTag "approach".data) t i = false)
    (h2 : ∀ i, i < t.length → occursAt (openTag "code".data) t i = false)
    (h3 : ∀ i, i < t.length → occursAt (openTag "chart".data) t i = false)
    (h4 : ∀ i, i < t.length → occursAt (openTag "answer".data) t i = false) :
    extract_code_segments t
      = { approach := none, code := none, chart := none, answer := none }
    ∧ execute_analysis ex df t = emptyResult := by
  have he : extract_code_segments t
      = { approach := none, code := none, chart := none, answer := none } := by
    unfold extract_code_segments
    rw [extractTag_no_open _ t h1, extractTag_no_open _ t h2,
      extractTag_no_open _ t h3, extractTag_no_open _ t h4]
  refine ⟨he, ?_⟩
  unfold execute_analysis
  rw [he]
  rfl

/-- C10 witness: case-variant tags `<Answer>` and `<CODE>` extract nothing
and the result record is entirely null. -/
theorem c10_case_sensitive_witness :
    extract_code_segments "<Answer>hi</Answer><CODE>x = 1</CODE>".data
      = { approach := none, code := none, chart := none, answer := none }
    ∧ execute_analysis pyExec df0 "<Answer>hi</Answer><CODE>x = 1</CODE>".data
        = emptyResult := by
  exact c10_case_sensitive pyExec df0 "<Answer>hi</Answer><CODE>x = 1</CODE>".data
    (by decide) (by decide) (by decide) (by decide)

/-- C3 (code_bug): the spec's worked example fails on the code.  For the
segment text `"\n    total = 1\n    avg = 2\n"` the normalization step
produces `"total = 1\n    avg = 2"` — the strip removes only the first
line's indentation, the computed minimum indent is then zero, and the
second line keeps its four spaces — not the claimed `"total = 1\navg = 2"`;
executing the normalized code raises an indentation error, and in the full
pipeline the answer field is null. -/
theorem c3_dedent_bug :
    pyDedent "\n    total = 1\n    avg = 2\n".data = "total = 1\n    avg = 2".data
    ∧ pyDedent "\n    total = 1\n    avg = 2\n".data ≠ "total = 1\navg = 2".data
    ∧ pyExec (pyDedent "\n    total = 1\n    avg = 2\n".data) (initNs df0)
        = Except.error PyErr.indentationError
    ∧ (execute_analysis pyExec df0
        "<code>\n    total = 1\n    avg = 2\n</code><answer>done</answer>".data).answer
        = none := by decide

set_option maxRecDepth 4000 in
/-- C7 (confirmed): the spec's end-to-end example.  Against the dataframe
`df0`, whose `sales` column holds 40 and 2 (summing to 42), the model
output with approach `Sum sales`, code summing the column, and template
`Total sales: {total}` yields exactly that approach, the rendered answer
`Total sales: 42`, and a null figure. -/
theorem c7_end_to_end_example :
    execute_analysis pyExec df0
      ("<approach>Sum sales</approach><code>total = df[".data ++ [squo]
        ++ "sales".data ++ [squo]
        ++ "].sum()</code><answer>Total sales: {total}</answer>".data)
      = { approach := some "Sum sales".data
          answer := some (PyVal.vStr "Total sales: 42".data)
          figure := none
          code := some ("total = df[".data ++ [squo] ++ "sales".data ++ [squo]
            ++ "].sum()".data)
          chart_code := none } := by decide
